import Mathlib

/-!
# Verification of the CodaLab bundle-execution worker

Shallow embedding of `src/codalab/objects/work_manager.py` (class `Worker`).

A bundle moves through the states CREATED → STAGED → RUNNING → READY/FAILED.
The worker's methods are embedded as pure Lean functions over an explicit
state `WState` holding the metadata-store rows, the worker's in-memory
scratch registry (`bundle_data`), the durable action queue, and a log of the
store write operations issued (so that conditional vs. unconditional writes
are observable).  External effects (the compute backend `Machine`, the blob
store upload, the clock) are passed in as oracle arguments.  Fallible code
(Python exceptions: `precondition` failures, `KeyError`) is embedded with
`Except String`.
-/

/-- Bundle lifecycle states (`State` in `codalab.common`, listed in the spec). -/
inductive BState where
  | created
  | staged
  | running
  | ready
  | failed
deriving DecidableEq, Repr

/-- Bundle kind: `RunBundle` requires backend execution, `MakeBundle` is
processed inline (`isinstance(bundle, RunBundle)` checks in the source). -/
inductive BundleKind where
  | runBundle
  | makeBundle
deriving DecidableEq, Repr

/-- One dependency edge: the parent uuid is all the worker logic consults. -/
structure Dep where
  parentUuid : String
deriving DecidableEq, Repr

/-- An operator command (`Command` in `codalab.common`); the worker only
recognises `KILL`. -/
inductive BAction where
  | kill
  | otherCmd (cmd : String)
deriving DecidableEq, Repr

/-- The metadata fields the worker reads or writes
(`failure_message`, `time`, `actions`); `none` means the key is absent. -/
structure Metadata where
  failureMessage : Option String := none
  time : Option Nat := none
  actions : Option (List BAction) := none
deriving DecidableEq, Repr

/-- A bundle row / in-memory bundle object. -/
structure Bundle where
  uuid : String
  kind : BundleKind
  state : BState
  dataHash : Option String := none
  dependencies : List Dep := []
  metadata : Metadata := {}
deriving DecidableEq, Repr

/-- A queued operator action (`BundleAction`). -/
structure BundleAction where
  bundleUuid : String
  action : BAction
deriving DecidableEq, Repr

/-- A partial row update, as built by the Python code: `state` is always
present; `dataHash = some v` means the `data_hash` key is present with value
`v`; `metadata = some m` means a `metadata` key is present, merged per field. -/
structure BundleUpdate where
  state : BState
  dataHash : Option (Option String) := none
  metadata : Option Metadata := none
deriving DecidableEq, Repr

/-- The worker's per-bundle scratch data (`self.bundle_data[uuid]`):
parent-dict keys, start time, and the actions applied so far. -/
structure ScratchRecord where
  parentUuids : List String
  startTime : Nat
  actions : List BAction
deriving DecidableEq, Repr

/-- A store write issued by the worker, as recorded in the operation log.
`batchUpdate` carries the pre-state condition and whether it applied;
`updateOne` is the unconditional single-row `update_bundle`. -/
inductive StoreOp where
  | batchUpdate (uuids : List String) (newState : BState) (cond : BState) (applied : Bool)
  | updateOne (uuid : String) (upd : BundleUpdate)
deriving DecidableEq, Repr

/-- The worker-visible world: store rows, the worker's in-memory registry,
the durable action queue, and the log of issued store writes. -/
structure WState where
  store : List Bundle
  registry : List (String × ScratchRecord)
  queue : List BundleAction
  log : List StoreOp
deriving DecidableEq, Repr

/-- Look up a scratch record by uuid (Python dict access on `bundle_data`). -/
def regFind : List (String × ScratchRecord) → String → Option ScratchRecord
  | [], _ => none
  | (k, v) :: rest, u => if k = u then some v else regFind rest u

/-- Insert / overwrite a scratch record (Python dict assignment). -/
def regInsert : List (String × ScratchRecord) → String → ScratchRecord →
    List (String × ScratchRecord)
  | [], u, r => [(u, r)]
  | (k, v) :: rest, u, r =>
    if k = u then (k, r) :: rest else (k, v) :: regInsert rest u r

/-- Look up a store row by uuid. -/
def rowFind : List Bundle → String → Option Bundle
  | [], _ => none
  | b :: rest, u => if b.uuid = u then some b else rowFind rest u

/-- Look up a parent state in the `all_parent_states` map. -/
def psFind : List (String × BState) → String → Option BState
  | [], _ => none
  | (k, v) :: rest, u => if k = u then some v else psFind rest u

/-- Per-field merge of a metadata update into a row's metadata: keys present
in the update override, absent keys are kept. -/
def mergeMeta (old upd : Metadata) : Metadata :=
  { failureMessage := upd.failureMessage.elim old.failureMessage some
    time := upd.time.elim old.time some
    actions := upd.actions.elim old.actions some }

/-- Apply a partial update to a row. -/
def applyUpdate (b : Bundle) (u : BundleUpdate) : Bundle :=
  { b with
    state := u.state
    dataHash := u.dataHash.elim b.dataHash id
    metadata := (u.metadata.elim b.metadata (mergeMeta b.metadata)) }

/-- Modelled from the spec: `MetadataStore.batch_update_bundles(bundles,
update, condition)` (the model class is not under `src/`).  Applies the
state update to the selected rows iff every selected row currently satisfies
the pre-state condition, all-or-nothing, returning success; per the
Launcher contract the in-memory bundle objects follow the committed state,
so the updated bundle list is returned as well. -/
def batchUpdateBundles (store : List Bundle) (bundles : List Bundle)
    (newState : BState) (cond : BState) : List Bundle × List Bundle × Bool :=
  let uuids := bundles.map (fun b => b.uuid)
  if uuids.all (fun u => (rowFind store u).elim false (fun r => r.state = cond)) then
    (store.map (fun r => if uuids.contains r.uuid then { r with state := newState } else r),
     bundles.map (fun b => { b with state := newState }),
     true)
  else
    (store, bundles, false)

/-- Modelled from the spec: `MetadataStore.update_bundle(bundle, update)`,
an unconditional single-row update (the model class is not under `src/`). -/
def updateBundle (store : List Bundle) (uuid : String) (u : BundleUpdate) :
    List Bundle :=
  store.map (fun r => if r.uuid = uuid then applyUpdate r u else r)

/-- `Worker.update_bundle_states(bundles, new_state)`: checks all bundles
share one state (`precondition`), then issues one conditional batch update
with the observed pre-state; returns the store result, the refreshed
in-memory bundles and the success flag; empty input trivially succeeds. -/
def updateBundleStates (s : WState) (bundles : List Bundle) (newState : BState) :
    Except String (WState × List Bundle × Bool) :=
  match bundles with
  | [] => .ok (s, [], true)
  | b :: rest =>
    if (b :: rest).all (fun x => x.state = b.state) then
      let r := batchUpdateBundles s.store (b :: rest) newState b.state
      .ok ({ s with
              store := r.1
              log := s.log ++
                [.batchUpdate ((b :: rest).map (fun x => x.uuid)) newState b.state r.2.2] },
            r.2.1, r.2.2)
    else
      .error "precondition: got multiple states"

/-- Python truthiness of the metadata dict (`if metadata:`): nonempty iff
some key is present. -/
def metaIsEmpty (m : Metadata) : Bool :=
  m.failureMessage.isNone && m.time.isNone && m.actions.isNone

/-- Outcome of the backend call `self.machine.start_bundle(...)`:
returned `True`, returned `False`, or raised an exception with a message. -/
inductive MachineStart where
  | accepted
  | rejected
  | raised (msg : String)
deriving DecidableEq, Repr

/-- Outcome of the finalize upload step (`bundle.install_dependencies` then
`self.bundle_store.upload(temp_dir)`): a data hash and upload metadata, or a
raised exception with a message. -/
abbrev UploadOutcome := Except String (String × Metadata)

/-- `Worker.finalize_bundle(result)` with `result = (bundle, success,
temp_dir)`.  Reads the scratch record (Python `KeyError` if absent), runs
the upload step (an error forces `success = False` and records the message),
adds `time`/`actions` for run bundles, then issues one unconditional
`update_bundle` write with the new state, data hash and metadata.  The
scratch record is read but never removed from `bundle_data`. -/
def finalizeBundle (s : WState) (b : Bundle) (success : Bool)
    (upload : UploadOutcome) (endTime : Nat) : Except String WState :=
  match regFind s.registry b.uuid with
  | none => .error "KeyError: no bundle_data entry"
  | some rec =>
    let tri : Option String × Metadata × Bool :=
      match upload with
      | .ok (h, m) => (some h, m, success)
      | .error e => (none, { failureMessage := some e }, false)
    let meta1 : Metadata :=
      if b.kind = .runBundle then
        let m := { tri.2.1 with time := some (endTime - rec.startTime) }
        if rec.actions.length > 0 then { m with actions := some rec.actions } else m
      else tri.2.1
    let newState := if tri.2.2 then BState.ready else BState.failed
    let upd : BundleUpdate :=
      { state := newState
        dataHash := some tri.1
        metadata := if metaIsEmpty meta1 then none else some meta1 }
    .ok { s with
            store := updateBundle s.store b.uuid upd
            log := s.log ++ [.updateOne b.uuid upd] }

/-- `Worker.start_bundle(bundle)`.  Asserts the RUNNING-state and nil-hash
preconditions, records a fresh scratch record, then dispatches on the kind:
a run bundle calls the backend (a raised exception makes `started = True`
and finalizes inline with `success = False`); a make bundle skips the
backend and finalizes inline with `success = True`.  Returns `started`. -/
def startBundle (s : WState) (b : Bundle) (mo : MachineStart)
    (upload : UploadOutcome) (now : Nat) : Except String (WState × Bool) :=
  if b.state = .running then
    if b.dataHash = none then
      let parentUuids := (b.dependencies.map (fun d => d.parentUuid)).dedup
      let s1 := { s with
        registry := regInsert s.registry b.uuid ⟨parentUuids, now, []⟩ }
      match b.kind with
      | .runBundle =>
        match mo with
        | .accepted => .ok (s1, true)
        | .rejected => .ok (s1, false)
        | .raised _ =>
          match finalizeBundle s1 b false upload now with
          | .ok s2 => .ok (s2, true)
          | .error e => .error e
      | .makeBundle =>
        match finalizeBundle s1 b true upload now with
        | .ok s2 => .ok (s2, true)
        | .error e => .error e
    else .error "precondition: unexpected bundle data_hash"
  else .error "precondition: unexpected bundle state"

/-- The loop body of `Worker.check_killed_bundles`: walk the popped actions
in order; a KILL the machine confirms is consumed and appended to the
bundle's scratch `actions` (Python `KeyError` when the registry has no entry
for its uuid); every other action is kept for re-queueing. -/
def processActions (reg : List (String × ScratchRecord)) (kill : String → Bool) :
    List BundleAction →
    Except String (List (String × ScratchRecord) × List BundleAction)
  | [] => .ok (reg, [])
  | x :: rest =>
    if x.action = BAction.kill ∧ kill x.bundleUuid then
      match regFind reg x.bundleUuid with
      | none => .error "KeyError: no bundle_data entry"
      | some r =>
        processActions (regInsert reg x.bundleUuid
          { r with actions := r.actions ++ [x.action] }) kill rest
    else
      match processActions reg kill rest with
      | .ok (reg2, keep) => .ok (reg2, x :: keep)
      | .error e => .error e

/-- `Worker.check_killed_bundles()`: atomically pops the queued actions,
processes them, re-inserts the kept ones as a single batch, and returns
whether the number of consumed actions is positive. -/
def checkKilledBundles (s : WState) (kill : String → Bool) :
    Except String (WState × Bool) :=
  let popped := s.queue
  match processActions s.registry kill popped with
  | .error e => .error e
  | .ok (reg2, keep) =>
    .ok ({ s with registry := reg2, queue := keep },
         popped.length - keep.length > 0)

/-- The distinct parent uuids of a bundle (`set(dep.parent_uuid ...)`). -/
def parentUuidsOf (b : Bundle) : List String :=
  (b.dependencies.map (fun d => d.parentUuid)).dedup

/-- The parent uuids of `b` found FAILED in the parent-state map. -/
def failedUuidsOf (ps : List (String × BState)) (b : Bundle) : List String :=
  (parentUuidsOf b).filter (fun u => psFind ps u = some BState.failed)

/-- The failure message written for a child of failed parents. -/
def failMessageOf (ps : List (String × BState)) (b : Bundle) : String :=
  "Parent bundles failed: " ++ String.intercalate ", " (failedUuidsOf ps b)

/-- The `bundles_to_fail` list of `update_created_bundles`: bundles with no
missing parent and at least one FAILED parent, paired with the message. -/
def bundlesToFail (bundles : List Bundle) (ps : List (String × BState)) :
    List (Bundle × String) :=
  bundles.filterMap (fun b =>
    if (parentUuidsOf b).all (fun u => (psFind ps u).isSome) then
      if failedUuidsOf ps b = [] then none
      else some (b, failMessageOf ps b)
    else none)

/-- The `bundles_to_stage` list: bundles with no missing parent, no FAILED
parent, and every parent READY. -/
def bundlesToStage (bundles : List Bundle) (ps : List (String × BState)) :
    List Bundle :=
  bundles.filter (fun b =>
    (parentUuidsOf b).all (fun u => (psFind ps u).isSome)
      && (failedUuidsOf ps b).isEmpty
      && (parentUuidsOf b).all (fun u => psFind ps u = some BState.ready))

/-- The row update written for a child of failed parents. -/
def failUpdOf (msg : String) : BundleUpdate :=
  { state := .failed, metadata := some { failureMessage := some msg } }

/-- The `for (bundle, failure_message) in bundles_to_fail` loop: one
unconditional `update_bundle` write per entry. -/
def failLoop (s : WState) : List (Bundle × String) → WState
  | [] => s
  | bf :: rest =>
    failLoop
      { s with
          store := updateBundle s.store bf.1.uuid (failUpdOf bf.2)
          log := s.log ++ [.updateOne bf.1.uuid (failUpdOf bf.2)] } rest

/-- `Worker.update_created_bundles()`.  `bundles` is the CREATED fetch
result and `ps` the parent-state map built from the parent fetch; the store
writes run against the current store `s.store`.  Each bundle to fail gets an
unconditional `update_bundle` write (FAILED + failure message); the bundles
to stage go through one conditional batch update to STAGED whose success is
discarded.  Returns whether any bundle was classified. -/
def updateCreatedBundles (s : WState) (bundles : List Bundle)
    (ps : List (String × BState)) : Except String (WState × Bool) :=
  let toFail := bundlesToFail bundles ps
  let toStage := bundlesToStage bundles ps
  let s1 := failLoop s toFail
  match updateBundleStates s1 toStage .staged with
  | .error e => .error e
  | .ok (s2, _, _) => .ok (s2, toFail.length + toStage.length > 0)

/-- The per-bundle body of `Worker.update_staged_bundles`: try the
conditional STAGED → RUNNING lock; on failure only warn (skip).  On success
call `start_bundle` on the refreshed bundle; if it reports not-started, roll
back with a conditional RUNNING → STAGED update.  `acc` counts accepted run
bundles (`new_running_bundles`). -/
def processStagedBundle (s : WState) (b : Bundle) (mo : MachineStart)
    (upload : UploadOutcome) (now : Nat) (acc : Nat) :
    Except String (WState × Nat) :=
  match updateBundleStates s [b] .running with
  | .error e => .error e
  | .ok (s1, bs1, locked) =>
    if locked then
      match startBundle s1 (bs1.headD b) mo upload now with
      | .error e => .error e
      | .ok (s2, started) =>
        if started then .ok (s2, acc + 1)
        else
          match updateBundleStates s2 [(bs1.headD b)] .staged with
          | .error e => .error e
          | .ok (s3, _, _) => .ok (s3, acc)
    else
      .ok (s1, acc)

/-- The `for bundle in bundles` loop of `update_staged_bundles`, threading
the state and the `new_running_bundles` counter. -/
def stagedLoop (s : WState) (mo : String → MachineStart)
    (upload : String → UploadOutcome) (now : Nat) (acc : Nat) :
    List Bundle → Except String (WState × Nat)
  | [] => .ok (s, acc)
  | b :: rest =>
    match processStagedBundle s b (mo b.uuid) (upload b.uuid) now acc with
    | .error e => .error e
    | .ok (s1, acc1) => stagedLoop s1 mo upload now acc1 rest

/-- `Worker.update_staged_bundles()`.  `staged` is the STAGED fetch result;
the oracles give the backend outcome and the upload outcome per uuid.
Returns whether `new_running_bundles > 0`. -/
def updateStagedBundles (s : WState) (staged : List Bundle)
    (mo : String → MachineStart) (upload : String → UploadOutcome)
    (now : Nat) : Except String (WState × Bool) :=
  match stagedLoop s mo upload now 0 staged with
  | .error e => .error e
  | .ok (s1, n) => .ok (s1, n > 0)

/-- `Worker.check_finished_bundles()`: poll the machine; on a completed
bundle, finalize it.  The Python function has no `return` statement, so its
value is `None`, embedded as `Option Bool` with value `none`. -/
def checkFinishedBundles (s : WState) (poll : Option (Bundle × Bool))
    (upload : String → UploadOutcome) (now : Nat) :
    Except String (WState × Option Bool) :=
  match poll with
  | none => .ok (s, none)
  | some (b, success) =>
    match finalizeBundle s b success (upload b.uuid) now with
    | .error e => .error e
    | .ok s1 => .ok (s1, none)

/-- Python truthiness of an `Option Bool` (`None` is falsy). -/
def truthy : Option Bool → Bool
  | none => false
  | some b => b

/-- One iteration of `Worker.run_loop`: kill dispatch, created update
(activity discarded), staged update, finished check; then the loop sleeps
iff none of `bool_killed`, `bool_run`, `bool_done` is truthy, and the
iteration counter advances iff it does not sleep.  Returns
`(state, slept, iterationAdvanced)`. -/
def runLoopTick (s : WState) (kill : String → Bool)
    (createdBundles : List Bundle) (ps : List (String × BState))
    (staged : List Bundle) (mo : String → MachineStart)
    (upload : String → UploadOutcome) (poll : Option (Bundle × Bool))
    (now : Nat) : Except String (WState × Bool × Bool) :=
  match checkKilledBundles s kill with
  | .error e => .error e
  | .ok (s1, boolKilled) =>
    match updateCreatedBundles s1 createdBundles ps with
    | .error e => .error e
    | .ok (s2, _) =>
      match updateStagedBundles s2 staged mo upload now with
      | .error e => .error e
      | .ok (s3, boolRun) =>
        match checkFinishedBundles s3 poll upload now with
        | .error e => .error e
        | .ok (s4, boolDone) =>
          let sleep := !(boolKilled || boolRun || truthy boolDone)
          .ok (s4, sleep, !sleep)

/-- Whether an action would be consumed by the dispatcher: a KILL the
machine confirms. -/
def isConsumedAction (kill : String → Bool) (x : BundleAction) : Bool :=
  decide (x.action = BAction.kill) && kill x.bundleUuid

/-- The consumed actions targeting uuid `u`, in queue order: what the
dispatcher appends to that bundle's scratch `actions`. -/
def consumedFor (kill : String → Bool) (acts : List BundleAction) (u : String) :
    List BAction :=
  ((acts.filter (isConsumedAction kill)).filter
    (fun x => x.bundleUuid = u)).map (fun x => x.action)

/-- Whether `start_bundle` reports `started = True` for a bundle under a
given backend outcome: make bundles always, run bundles unless rejected. -/
def startedUnder (mo : String → MachineStart) (b : Bundle) : Bool :=
  decide (b.kind = .makeBundle) || !(decide (mo b.uuid = .rejected))

/-- An empty scratch record used in concrete scenarios. -/
def exRec0 : ScratchRecord := ⟨[], 0, []⟩

/-- A concrete run bundle in RUNNING state with no data hash. -/
def exRunning : Bundle := { uuid := "r1", kind := .runBundle, state := .running }

/-- A world where `exRunning` is tracked by the worker. -/
def wsRunning : WState :=
  { store := [exRunning], registry := [("r1", exRec0)], queue := [], log := [] }

/-- A world where `exRunning` has a store row but no scratch record yet. -/
def wsStart : WState :=
  { store := [exRunning], registry := [], queue := [], log := [] }

/-- A concrete CREATED child depending on parent `p1`. -/
def exCreatedChild : Bundle :=
  { uuid := "c1", kind := .runBundle, state := .created, dependencies := [⟨"p1"⟩] }

/-- A concrete staged make bundle. -/
def exMakeStaged : Bundle := { uuid := "m1", kind := .makeBundle, state := .staged }

/-- A concrete staged run bundle. -/
def exRunStaged : Bundle := { uuid := "s1", kind := .runBundle, state := .staged }

/-- A concrete action queue: one KILL for a tracked bundle, one unknown
command. -/
def exKillQueue : List BundleAction := [⟨"k1", .kill⟩, ⟨"k2", .otherCmd "resume"⟩]

/-- A concrete kill oracle confirming only `k1`. -/
def exKillFn : String → Bool := fun u => decide (u = "k1")

/-- A world with a tracked bundle `k1` and the queue above. -/
def wsKill : WState := ⟨[], [("k1", exRec0)], exKillQueue, []⟩

/-- The pre-state condition checked by the modelled
`batch_update_bundles`: every targeted row exists and holds `cond`. -/
def condHolds (store : List Bundle) (bundles : List Bundle) (cond : BState) : Bool :=
  (bundles.map (fun b => b.uuid)).all
    (fun u => (rowFind store u).elim false (fun r => r.state = cond))

theorem regFind_regInsert_self (reg : List (String × ScratchRecord))
    (u : String) (r : ScratchRecord) :
    regFind (regInsert reg u r) u = some r := by
  induction reg with
  | nil => simp [regInsert, regFind]
  | cons kv rest ih =>
    by_cases h : kv.1 = u
    · simp [regInsert, regFind, h]
    · simp [regInsert, regFind, h, ih]

theorem regFind_regInsert_ne (reg : List (String × ScratchRecord))
    (u w : String) (r : ScratchRecord) (h : w ≠ u) :
    regFind (regInsert reg u r) w = regFind reg w := by
  have h2 : ¬(u = w) := fun hh => h hh.symm
  induction reg with
  | nil => simp [regInsert, regFind, h2]
  | cons kv rest ih =>
    by_cases hk : kv.1 = u
    · simp [regInsert, regFind, hk, h2]
    · simp [regInsert, regFind, hk, ih]

theorem rowFind_uuid (store : List Bundle) (w : String) (q : Bundle)
    (h : rowFind store w = some q) : q.uuid = w := by
  induction store with
  | nil => simp [rowFind] at h
  | cons b rest ih =>
    by_cases hb : b.uuid = w
    · simp [rowFind, hb] at h; rw [← h]; exact hb
    · simp [rowFind, hb] at h; exact ih h

theorem rowFind_map (f : Bundle → Bundle) (hf : ∀ x, (f x).uuid = x.uuid)
    (store : List Bundle) (w : String) :
    rowFind (store.map f) w = (rowFind store w).map f := by
  induction store with
  | nil => simp [rowFind]
  | cons b rest ih =>
    by_cases hb : b.uuid = w
    · simp [rowFind, hf, hb]
    · simp [rowFind, hf, hb, ih]

theorem applyUpdate_uuid (b : Bundle) (u : BundleUpdate) :
    (applyUpdate b u).uuid = b.uuid := rfl

theorem rowFind_updateBundle (store : List Bundle) (u : String)
    (upd : BundleUpdate) (w : String) :
    rowFind (updateBundle store u upd) w =
      (rowFind store w).map (fun r => if r.uuid = u then applyUpdate r upd else r) := by
  unfold updateBundle
  exact rowFind_map _ (fun x => by by_cases h : x.uuid = u <;> simp [h, applyUpdate_uuid]) store w

theorem rowFind_updateBundle_self (store : List Bundle) (u : String)
    (upd : BundleUpdate) (q : Bundle) (h : rowFind store u = some q) :
    rowFind (updateBundle store u upd) u = some (applyUpdate q upd) := by
  rw [rowFind_updateBundle, h]
  simp [rowFind_uuid store u q h]

theorem rowFind_updateBundle_ne (store : List Bundle) (u : String)
    (upd : BundleUpdate) (w : String) (h : w ≠ u) :
    rowFind (updateBundle store u upd) w = rowFind store w := by
  rw [rowFind_updateBundle]
  cases hq : rowFind store w with
  | none => rfl
  | some q =>
    have := rowFind_uuid store w q hq
    simp [this, h]

/-- C6 counterexample: after `finalize_bundle` completes for a concrete
tracked bundle, the scratch record keyed by its uuid is still present in the
worker's registry — it has not been deleted, contradicting the claim. -/
theorem finalize_keeps_scratch_record_cex :
    (finalizeBundle wsRunning exRunning true (.ok ("h", {})) 5).map
        (fun s2 => regFind s2.registry "r1") = .ok (some exRec0)
      ∧ some exRec0 ≠ (none : Option ScratchRecord) :=
  ⟨rfl, by simp⟩

/-- C6 (amended): `finalize_bundle` leaves the worker's in-memory registry
entirely unchanged: the bundle's scratch record is read but never deleted,
and no other entry is touched. -/
theorem finalize_leaves_registry_unchanged (s : WState) (b : Bundle)
    (success : Bool) (upload : UploadOutcome) (endTime : Nat)
    (h : (regFind s.registry b.uuid).isSome) :
    (finalizeBundle s b success upload endTime).map (fun s2 => s2.registry)
      = .ok s.registry := by
  unfold finalizeBundle
  cases hq : regFind s.registry b.uuid with
  | none => rw [hq] at h; simp at h
  | some rec => simp [hq, Except.map]

/-- Witness for C6 (amended) at a concrete tracked bundle. -/
theorem finalize_leaves_registry_unchanged_witness :
    (regFind wsRunning.registry exRunning.uuid).isSome
      ∧ (finalizeBundle wsRunning exRunning true (.ok ("h", {})) 5).map
          (fun s2 => s2.registry) = .ok wsRunning.registry :=
  ⟨by decide, finalize_leaves_registry_unchanged wsRunning exRunning true
    (.ok ("h", {})) 5 (by decide)⟩

/-- C3 counterexample: `Machine.start` raises with message `boom`; the
bundle ends FAILED but its stored `metadata.failure_message` is absent, not
equal to the exception's message. -/
theorem start_raise_drops_exception_message_cex :
    (startBundle wsStart exRunning (.raised "boom") (.ok ("h", {})) 7).map
        (fun p => (p.2, (rowFind p.1.store "r1").map
          (fun r => (r.state, r.metadata.failureMessage))))
      = .ok (true, some (BState.failed, none))
      ∧ (none : Option String) ≠ some "boom" :=
  ⟨rfl, by simp⟩

/-- C2 (code bug): `check_finished_bundles` has no return statement, so the
finalizer can never report activity.  At a tick where the only event is the
finalizer reaping a completed bundle (here committed to READY), the loop
sleeps and the iteration counter does not advance. -/
theorem finalizer_activity_not_counted :
    (runLoopTick wsRunning (fun _ => false) [] [] [] (fun _ => .accepted)
        (fun _ => .ok ("h", {})) (some (exRunning, true)) 3).map
        (fun p => (p.2.1, p.2.2, (rowFind p.1.store "r1").map (fun r => r.state)))
      = .ok (true, false, some .ready) := rfl

theorem processActions_raises (kill : String → Bool) :
    ∀ (acts : List BundleAction) (reg : List (String × ScratchRecord))
      (x : BundleAction), x ∈ acts → x.action = .kill → kill x.bundleUuid = true →
      regFind reg x.bundleUuid = none →
      processActions reg kill acts = .error "KeyError: no bundle_data entry" := by
  intro acts
  induction acts with
  | nil => intro reg x hx _ _ _; simp at hx
  | cons y rest ih =>
    intro reg x hx hxa hxk hxr
    rcases List.mem_cons.mp hx with h | h
    · subst h
      simp [processActions, hxa, hxk, hxr]
    · by_cases hy : y.action = BAction.kill ∧ kill y.bundleUuid
      · cases hq : regFind reg y.bundleUuid with
        | none => simp [processActions, hy, hq]
        | some r =>
          have hne : x.bundleUuid ≠ y.bundleUuid := by
            intro he; rw [he, hq] at hxr; exact Option.noConfusion hxr
          have hfind : regFind (regInsert reg y.bundleUuid
              { r with actions := r.actions ++ [y.action] }) x.bundleUuid = none := by
            rw [regFind_regInsert_ne _ _ _ _ hne]; exact hxr
          rw [hy.1] at hfind
          simp [processActions, hy, hq, ih _ x h hxa hxk hfind]
      · simp [processActions, hy, ih _ x h hxa hxk hxr]

/-- C10: a popped KILL action whose uuid has no scratch record on this
worker, but which the shared machine confirms killing, makes
`check_killed_bundles` raise a `KeyError`; the method aborts before
`add_bundle_actions`, so none of the popped actions are re-inserted. -/
theorem kill_unknown_uuid_raises (s : WState) (kill : String → Bool)
    (x : BundleAction) (hx : x ∈ s.queue) (hxa : x.action = .kill)
    (hxk : kill x.bundleUuid = true) (hxr : regFind s.registry x.bundleUuid = none) :
    checkKilledBundles s kill = .error "KeyError: no bundle_data entry" := by
  simp only [checkKilledBundles,
    processActions_raises kill s.queue s.registry x hx hxa hxk hxr]

/-- Witness for C10 at a concrete one-action queue. -/
theorem kill_unknown_uuid_raises_witness :
    ((⟨"z1", .kill⟩ : BundleAction) ∈
        (⟨[], [], [⟨"z1", .kill⟩], []⟩ : WState).queue)
      ∧ (⟨"z1", BAction.kill⟩ : BundleAction).action = .kill
      ∧ ((fun _ => true) : String → Bool) "z1" = true
      ∧ regFind (⟨[], [], [⟨"z1", .kill⟩], []⟩ : WState).registry "z1" = none
      ∧ checkKilledBundles (⟨[], [], [⟨"z1", .kill⟩], []⟩ : WState) (fun _ => true)
          = .error "KeyError: no bundle_data entry" :=
  ⟨by simp, rfl, rfl, rfl,
    kill_unknown_uuid_raises (⟨[], [], [⟨"z1", .kill⟩], []⟩ : WState)
      (fun _ => true) ⟨"z1", .kill⟩ (by simp) rfl rfl rfl⟩

/-- C3 (amended): when `Machine.start` raises during `start_bundle`, the
bundle is not left RUNNING: it is finalized inline with `success = False`
and its row ends FAILED.  The exception's message, however, is only printed,
never stored: the committed `failure_message` comes from the finalize upload
step (the upload error's message if that step raises, otherwise the upload
metadata's value, defaulting to the row's previous value). -/
theorem start_raise_ends_failed (s : WState) (b : Bundle) (msg : String)
    (upload : UploadOutcome) (now : Nat) (r : Bundle)
    (hk : b.kind = .runBundle) (hs : b.state = .running) (hh : b.dataHash = none)
    (hr : rowFind s.store b.uuid = some r) :
    (startBundle s b (.raised msg) upload now).map
        (fun p => (p.2, (rowFind p.1.store b.uuid).map
          (fun q => (q.state, q.metadata.failureMessage))))
      = .ok (true, some (BState.failed,
          match upload with
          | .error e => some e
          | .ok hm => hm.2.failureMessage.elim r.metadata.failureMessage some)) := by
  have huuid := rowFind_uuid s.store b.uuid r hr
  cases upload with
  | ok hm =>
    simp [startBundle, finalizeBundle, hs, hh, hk, regFind_regInsert_self,
      rowFind_updateBundle, hr, huuid, applyUpdate, mergeMeta, metaIsEmpty,
      Except.map]
  | error e =>
    simp [startBundle, finalizeBundle, hs, hh, hk, regFind_regInsert_self,
      rowFind_updateBundle, hr, huuid, applyUpdate, mergeMeta, metaIsEmpty,
      Except.map]

/-- Witness for C3 (amended): the upload step itself raises `disk`, so the
stored failure message is `disk`, not the launch exception's `boom`. -/
theorem start_raise_ends_failed_witness :
    exRunning.kind = .runBundle ∧ exRunning.state = .running
      ∧ exRunning.dataHash = none
      ∧ rowFind wsStart.store exRunning.uuid = some exRunning
      ∧ (startBundle wsStart exRunning (.raised "boom") (.error "disk") 7).map
          (fun p => (p.2, (rowFind p.1.store exRunning.uuid).map
            (fun q => (q.state, q.metadata.failureMessage))))
        = .ok (true, some (BState.failed, some "disk")) :=
  ⟨rfl, rfl, rfl, rfl,
    start_raise_ends_failed wsStart exRunning "boom" (.error "disk") 7 exRunning
      rfl rfl rfl rfl⟩

theorem batchUpdateBundles_eq (store bundles : List Bundle) (st cond : BState) :
    batchUpdateBundles store bundles st cond =
      if condHolds store bundles cond then
        (store.map (fun r => if (bundles.map (fun b => b.uuid)).contains r.uuid
            then { r with state := st } else r),
         bundles.map (fun b => { b with state := st }), true)
      else (store, bundles, false) := rfl

theorem condHolds_iff (store bundles : List Bundle) (cond : BState) :
    condHolds store bundles cond = true ↔
      ∀ x ∈ bundles, ∃ q, rowFind store x.uuid = some q ∧ q.state = cond := by
  unfold condHolds
  rw [List.all_eq_true]
  constructor
  · intro h x hx
    have hx2 := h x.uuid (List.mem_map_of_mem _ hx)
    cases hq : rowFind store x.uuid with
    | none => rw [hq] at hx2; simp at hx2
    | some q => rw [hq] at hx2; simp at hx2; exact ⟨q, rfl, hx2⟩
  · intro h u hu
    rcases List.mem_map.mp hu with ⟨x, hx, rfl⟩
    rcases h x hx with ⟨q, hq, hqs⟩
    simp [hq, hqs]

theorem stageMap_uuid (bundles : List Bundle) (st : BState) (r : Bundle) :
    ((fun r => if (bundles.map (fun b => b.uuid)).contains r.uuid
        then { r with state := st } else r) r).uuid = r.uuid := by
  simp only []
  split <;> rfl

theorem batch_store_row_mem (store bundles : List Bundle) (st : BState)
    (x : Bundle) (hx : x ∈ bundles) (q : Bundle)
    (hq : rowFind store x.uuid = some q) :
    rowFind (store.map (fun r => if (bundles.map (fun b => b.uuid)).contains r.uuid
        then { r with state := st } else r)) x.uuid = some { q with state := st } := by
  have hc : ((bundles.map (fun b => b.uuid)).contains q.uuid = true) := by
    rw [rowFind_uuid store x.uuid q hq, List.elem_iff]
    exact List.mem_map_of_mem _ hx
  rw [rowFind_map _ (stageMap_uuid bundles st) store x.uuid, hq]
  simp only [Option.map_some']
  rw [if_pos hc]

theorem batch_store_row_ne (store bundles : List Bundle) (st : BState)
    (w : String) (hw : ¬ w ∈ bundles.map (fun b => b.uuid)) :
    rowFind (store.map (fun r => if (bundles.map (fun b => b.uuid)).contains r.uuid
        then { r with state := st } else r)) w = rowFind store w := by
  rw [rowFind_map _ (stageMap_uuid bundles st) store w]
  cases hq : rowFind store w with
  | none => rfl
  | some q =>
    have hc : ¬ ((bundles.map (fun b => b.uuid)).contains q.uuid = true) := by
      rw [rowFind_uuid store w q hq, List.elem_iff]
      exact hw
    simp only [Option.map_some']
    rw [if_neg hc]

theorem updateBundleStates_cons (s : WState) (b : Bundle) (rest : List Bundle)
    (st : BState) (hall : ((b :: rest).all (fun x => x.state = b.state)) = true) :
    updateBundleStates s (b :: rest) st
      = .ok ({ s with
          store := (batchUpdateBundles s.store (b :: rest) st b.state).1
          log := s.log ++ [.batchUpdate ((b :: rest).map (fun x => x.uuid)) st b.state
            (batchUpdateBundles s.store (b :: rest) st b.state).2.2] },
        (batchUpdateBundles s.store (b :: rest) st b.state).2.1,
        (batchUpdateBundles s.store (b :: rest) st b.state).2.2) := by
  simp [updateBundleStates, hall]

theorem failLoop_registry (s : WState) (l : List (Bundle × String)) :
    (failLoop s l).registry = s.registry := by
  induction l generalizing s with
  | nil => rfl
  | cons bf rest ih => simp only [failLoop]; rw [ih]

theorem failLoop_queue (s : WState) (l : List (Bundle × String)) :
    (failLoop s l).queue = s.queue := by
  induction l generalizing s with
  | nil => rfl
  | cons bf rest ih => simp only [failLoop]; rw [ih]

theorem failLoop_store_ne (s : WState) (l : List (Bundle × String)) (w : String)
    (hw : ∀ p ∈ l, p.1.uuid ≠ w) :
    rowFind (failLoop s l).store w = rowFind s.store w := by
  induction l generalizing s with
  | nil => rfl
  | cons bf rest ih =>
    simp only [failLoop]
    rw [ih _ (fun p hp => hw p (List.mem_cons_of_mem _ hp))]
    exact rowFind_updateBundle_ne s.store bf.1.uuid _ w
      (fun he => hw bf (List.mem_cons_self _ _) he.symm)

theorem failLoop_store_mem (s : WState) (l : List (Bundle × String)) (b : Bundle)
    (msg : String) (q : Bundle)
    (hnd : (l.map (fun p => p.1.uuid)).Nodup) (hmem : (b, msg) ∈ l)
    (hq : rowFind s.store b.uuid = some q) :
    rowFind (failLoop s l).store b.uuid = some (applyUpdate q (failUpdOf msg)) := by
  induction l generalizing s q with
  | nil => simp at hmem
  | cons bf rest ih =>
    rw [List.map_cons] at hnd
    have hnd2 := List.nodup_cons.mp hnd
    rcases List.mem_cons.mp hmem with he | hm
    · subst he
      simp only [failLoop]
      have hrest : ∀ p ∈ rest, p.1.uuid ≠ b.uuid := by
        intro p hp heq
        exact hnd2.1 (heq ▸ List.mem_map_of_mem (fun x => x.1.uuid) hp)
      rw [failLoop_store_ne _ _ _ hrest]
      exact rowFind_updateBundle_self s.store b.uuid _ q hq
    · have hne : bf.1.uuid ≠ b.uuid := by
        intro heq
        exact hnd2.1 (heq ▸ List.mem_map_of_mem (fun x => x.1.uuid) hm)
      simp only [failLoop]
      apply ih _ _ hnd2.2 hm
      rw [rowFind_updateBundle_ne _ _ _ _ (Ne.symm hne)]
      exact hq

theorem parentUuidsOf_all (b : Bundle) (f : String → Bool) :
    ((parentUuidsOf b).all f = true) ↔ ∀ d ∈ b.dependencies, f d.parentUuid = true := by
  rw [List.all_eq_true]
  constructor
  · intro h d hd
    exact h d.parentUuid
      (by rw [parentUuidsOf, List.mem_dedup]; exact List.mem_map_of_mem _ hd)
  · intro h u hu
    rw [parentUuidsOf, List.mem_dedup] at hu
    rcases List.mem_map.mp hu with ⟨d, hd, rfl⟩
    exact h d hd

theorem failedUuidsOf_ne_nil (ps : List (String × BState)) (b : Bundle) :
    failedUuidsOf ps b ≠ [] ↔
      ∃ d ∈ b.dependencies, psFind ps d.parentUuid = some .failed := by
  unfold failedUuidsOf
  rw [Ne, List.filter_eq_nil_iff]
  push_neg
  constructor
  · rintro ⟨u, hu, hdec⟩
    rw [parentUuidsOf, List.mem_dedup] at hu
    rcases List.mem_map.mp hu with ⟨d, hd, rfl⟩
    exact ⟨d, hd, of_decide_eq_true hdec⟩
  · rintro ⟨d, hd, hfail⟩
    exact ⟨d.parentUuid,
      by rw [parentUuidsOf, List.mem_dedup]; exact List.mem_map_of_mem _ hd,
      decide_eq_true hfail⟩

/-- C1 counterexample: the CREATED → FAILED write in
`update_created_bundles` is issued through the unconditional
`update_bundle`.  Here the child's row has meanwhile moved to RUNNING, so
it no longer holds the observed pre-state CREATED, yet the write still
applies and the row ends FAILED. -/
theorem conditional_writes_cex :
    (rowFind [({ uuid := "c1", kind := .runBundle, state := .running } : Bundle)]
        "c1").map (fun q => q.state) = some .running
      ∧ (updateCreatedBundles
            ⟨[{ uuid := "c1", kind := .runBundle, state := .running }], [], [], []⟩
            [exCreatedChild] [("p1", .failed)]).map
          (fun p => (rowFind p.1.store "c1").map (fun q => q.state))
        = .ok (some .failed) :=
  ⟨rfl, rfl⟩

/-- C1 (amended): transitions issued through `update_bundle_states` (the
staging batch, the STAGED → RUNNING lock and the RUNNING → STAGED rollback)
are conditional: the batch applies iff every targeted row still holds the
observed pre-state, and on a miss the store is untouched.  The
CREATED → FAILED writes of `update_created_bundles` and the finalize commit
are unconditional `update_bundle` writes applying whatever state the row
currently holds. -/
theorem state_writes_conditionality :
    (∀ (s : WState) (b : Bundle) (rest : List Bundle) (st : BState),
      ((b :: rest).all (fun x => x.state = b.state)) = true →
      (condHolds s.store (b :: rest) b.state = true ↔
        ∀ x ∈ b :: rest, ∃ q, rowFind s.store x.uuid = some q ∧ q.state = b.state)
      ∧ (condHolds s.store (b :: rest) b.state = false →
          (updateBundleStates s (b :: rest) st).map
            (fun p => (p.1.store, p.2.2)) = .ok (s.store, false))
      ∧ (condHolds s.store (b :: rest) b.state = true →
          ∀ x ∈ b :: rest, ∀ q, rowFind s.store x.uuid = some q →
          (updateBundleStates s (b :: rest) st).map
              (fun p => (rowFind p.1.store x.uuid, p.2.2))
            = .ok (some { q with state := st }, true)))
    ∧ (∀ (s : WState) (b : Bundle) (succ : Bool) (up : UploadOutcome) (t : Nat)
        (q : Bundle), (regFind s.registry b.uuid).isSome →
        rowFind s.store b.uuid = some q →
        (finalizeBundle s b succ up t).map
            (fun s2 => (rowFind s2.store b.uuid).map (fun x => x.state))
          = .ok (some (if (match up with | .ok _ => succ | .error _ => false)
                then BState.ready else BState.failed)))
    ∧ (∀ (s : WState) (l : List (Bundle × String)) (b : Bundle) (msg : String)
        (q : Bundle), (l.map (fun p => p.1.uuid)).Nodup → (b, msg) ∈ l →
        rowFind s.store b.uuid = some q →
        (rowFind (failLoop s l).store b.uuid).map
            (fun x => (x.state, x.metadata.failureMessage))
          = some (BState.failed, some msg)) := by
  refine ⟨?_, ?_, ?_⟩
  · intro s b rest st hall
    refine ⟨condHolds_iff s.store (b :: rest) b.state, ?_, ?_⟩
    · intro hfalse
      rw [updateBundleStates_cons s b rest st hall, batchUpdateBundles_eq]
      simp [hfalse, Except.map]
    · intro htrue x hx q hq
      rw [updateBundleStates_cons s b rest st hall, batchUpdateBundles_eq]
      simp only [htrue, if_true, Except.map]
      rw [batch_store_row_mem s.store (b :: rest) st x hx q hq]
  · intro s b succ up t q hreg hq
    have huuid := rowFind_uuid s.store b.uuid q hq
    cases hrec : regFind s.registry b.uuid with
    | none => rw [hrec] at hreg; simp at hreg
    | some rec =>
      cases up with
      | ok hm =>
        cases succ <;>
          simp [finalizeBundle, hrec, rowFind_updateBundle, hq, huuid,
            applyUpdate, Except.map]
      | error e =>
        simp [finalizeBundle, hrec, rowFind_updateBundle, hq, huuid,
          applyUpdate, Except.map]
  · intro s l b msg q hnd hmem hq
    rw [failLoop_store_mem s l b msg q hnd hmem hq]
    simp [applyUpdate, failUpdOf, mergeMeta]

/-- Witness for C1 (amended): a successful conditional STAGED → RUNNING
lock at a concrete store. -/
theorem state_writes_conditionality_witness :
    (([exRunStaged].all (fun x => x.state = exRunStaged.state)) = true)
      ∧ condHolds (⟨[exRunStaged], [], [], []⟩ : WState).store [exRunStaged]
          exRunStaged.state = true
      ∧ (updateBundleStates ⟨[exRunStaged], [], [], []⟩ [exRunStaged] .running).map
            (fun p => (rowFind p.1.store exRunStaged.uuid, p.2.2))
          = .ok (some { exRunStaged with state := .running }, true) :=
  ⟨by decide, by decide,
    (state_writes_conditionality.1 ⟨[exRunStaged], [], [], []⟩ exRunStaged [] .running
        (by decide)).2.2 (by decide) exRunStaged (List.mem_cons_self _ _)
      exRunStaged rfl⟩

/-- C5 counterexample: one CREATED bundle is classified for staging, but a
peer has already moved its row to STAGED; the conditional batch therefore
fails and nothing is committed — the store is unchanged — yet
`update_created_bundles` still returns `true`. -/
theorem update_created_return_cex :
    (updateCreatedBundles
        ⟨[{ uuid := "c1", kind := .runBundle, state := .staged }], [], [], []⟩
        [exCreatedChild] [("p1", .ready)]).map (fun p => (p.2, p.1.store))
      = .ok (true, [{ uuid := "c1", kind := .runBundle, state := .staged }]) :=
  rfl

/-- C5 (amended): `update_created_bundles` returns `true` iff at least one
fetched bundle was classified — all parents present and (some parent FAILED
or all parents READY) — regardless of whether the conditional
CREATED → STAGED batch actually committed (its success flag is discarded). -/
theorem update_created_return_iff (s : WState) (bundles : List Bundle)
    (ps : List (String × BState)) (s2 : WState) (ret : Bool)
    (h : updateCreatedBundles s bundles ps = .ok (s2, ret)) :
    ret = true ↔ ∃ b ∈ bundles,
      (∀ d ∈ b.dependencies, (psFind ps d.parentUuid).isSome = true)
      ∧ ((∃ d ∈ b.dependencies, psFind ps d.parentUuid = some .failed)
         ∨ (∀ d ∈ b.dependencies, psFind ps d.parentUuid = some .ready)) := by
  have heq : updateCreatedBundles s bundles ps =
      match updateBundleStates (failLoop s (bundlesToFail bundles ps))
          (bundlesToStage bundles ps) .staged with
      | .error e => .error e
      | .ok (s3, _, _) => .ok (s3, decide ((bundlesToFail bundles ps).length
          + (bundlesToStage bundles ps).length > 0)) := rfl
  have hret : ret = decide ((bundlesToFail bundles ps).length
      + (bundlesToStage bundles ps).length > 0) := by
    rw [heq] at h
    cases hu : updateBundleStates (failLoop s (bundlesToFail bundles ps))
        (bundlesToStage bundles ps) .staged with
    | error e => rw [hu] at h; simp at h
    | ok trip =>
      obtain ⟨ts, tbs, tok⟩ := trip
      rw [hu] at h
      simp only [Except.ok.injEq, Prod.mk.injEq] at h
      exact h.2.symm
  have hsplit : ((bundlesToFail bundles ps).length
        + (bundlesToStage bundles ps).length > 0)
      ↔ 0 < (bundlesToFail bundles ps).length
        ∨ 0 < (bundlesToStage bundles ps).length := by omega
  rw [hret, decide_eq_true_iff, hsplit, List.length_pos, List.length_pos]
  constructor
  · rintro (hF | hS)
    · unfold bundlesToFail at hF
      rw [Ne, List.filterMap_eq_nil_iff] at hF
      push_neg at hF
      rcases hF with ⟨b, hb, hfb⟩
      by_cases hp : ((parentUuidsOf b).all (fun u => (psFind ps u).isSome) = true)
      · by_cases hf2 : failedUuidsOf ps b = []
        · rw [if_pos hp, if_pos hf2] at hfb
          exact absurd rfl hfb
        · exact ⟨b, hb, (parentUuidsOf_all b _).mp hp,
            Or.inl ((failedUuidsOf_ne_nil ps b).mp hf2)⟩
      · rw [if_neg hp] at hfb
        exact absurd rfl hfb
    · unfold bundlesToStage at hS
      rw [Ne, List.filter_eq_nil_iff] at hS
      push_neg at hS
      rcases hS with ⟨b, hb, hpred⟩
      simp only [Bool.and_eq_true] at hpred
      refine ⟨b, hb, (parentUuidsOf_all b _).mp hpred.1.1, Or.inr ?_⟩
      intro d hd
      exact of_decide_eq_true ((parentUuidsOf_all b _).mp hpred.2 d hd)
  · rintro ⟨b, hb, hA, hB | hC⟩
    · left
      unfold bundlesToFail
      rw [Ne, List.filterMap_eq_nil_iff]
      push_neg
      refine ⟨b, hb, ?_⟩
      rw [if_pos ((parentUuidsOf_all b _).mpr hA),
        if_neg ((failedUuidsOf_ne_nil ps b).mpr hB)]
      simp
    · right
      unfold bundlesToStage
      rw [Ne, List.filter_eq_nil_iff]
      push_neg
      refine ⟨b, hb, ?_⟩
      simp only [Bool.and_eq_true]
      refine ⟨⟨(parentUuidsOf_all b _).mpr hA, ?_⟩, ?_⟩
      · rw [List.isEmpty_iff]
        by_contra hne
        rcases (failedUuidsOf_ne_nil ps b).mp hne with ⟨d, hd, hfail⟩
        have hready := hC d hd
        rw [hready] at hfail
        simp at hfail
      · exact (parentUuidsOf_all b _).mpr
          (fun d hd => decide_eq_true (hC d hd))

/-- Witness for C5 (amended): a child of a FAILED parent is classified, the
method returns `true`, and the equivalence holds at this input. -/
theorem update_created_return_iff_witness :
    updateCreatedBundles
        ⟨[{ uuid := "c1", kind := .runBundle, state := .created }], [], [], []⟩
        [exCreatedChild] [("p1", .failed)]
      = .ok (⟨[{ uuid := "c1", kind := .runBundle, state := .failed,
                 dataHash := none, dependencies := [],
                 metadata := { failureMessage := some "Parent bundles failed: p1" } }],
              [], [],
              [StoreOp.updateOne "c1" (failUpdOf "Parent bundles failed: p1")]⟩,
             true)
      ∧ ((true : Bool) = true ↔ ∃ b ∈ [exCreatedChild],
          (∀ d ∈ b.dependencies,
            (psFind [("p1", BState.failed)] d.parentUuid).isSome = true)
          ∧ ((∃ d ∈ b.dependencies,
              psFind [("p1", BState.failed)] d.parentUuid = some .failed)
             ∨ (∀ d ∈ b.dependencies,
              psFind [("p1", BState.failed)] d.parentUuid = some .ready))) :=
  ⟨rfl,
    update_created_return_iff
      ⟨[{ uuid := "c1", kind := .runBundle, state := .created }], [], [], []⟩
      [exCreatedChild] [("p1", .failed)] _ true rfl⟩

theorem isConsumedAction_iff (kill : String → Bool) (x : BundleAction) :
    isConsumedAction kill x = true ↔
      (x.action = BAction.kill ∧ kill x.bundleUuid = true) := by
  simp [isConsumedAction]

theorem consumedFor_cons (kill : String → Bool) (x : BundleAction)
    (rest : List BundleAction) (u : String) :
    consumedFor kill (x :: rest) u
      = if isConsumedAction kill x = true then
          (if x.bundleUuid = u then x.action :: consumedFor kill rest u
           else consumedFor kill rest u)
        else consumedFor kill rest u := by
  unfold consumedFor
  rw [List.filter_cons]
  by_cases h1 : isConsumedAction kill x = true
  · rw [if_pos h1, if_pos h1, List.filter_cons]
    by_cases h2 : (x.bundleUuid = u)
    · rw [if_pos (decide_eq_true h2), if_pos h2, List.map_cons]
    · rw [if_neg (by simpa using h2), if_neg h2]
  · rw [if_neg h1, if_neg h1]

theorem filter_partition_length (l : List BundleAction) (p : BundleAction → Bool) :
    (l.filter p).length + (l.filter (fun x => !(p x))).length = l.length := by
  induction l with
  | nil => rfl
  | cons x rest ih =>
    rw [List.filter_cons, List.filter_cons]
    by_cases h : p x = true <;> simp [h, ← ih] <;> omega

theorem processActions_ok (kill : String → Bool) :
    ∀ (acts : List BundleAction) (reg : List (String × ScratchRecord)),
      (∀ x ∈ acts, isConsumedAction kill x = true →
        (regFind reg x.bundleUuid).isSome = true) →
      ∃ reg2, processActions reg kill acts
          = .ok (reg2, acts.filter (fun x => !(isConsumedAction kill x)))
        ∧ ∀ u, regFind reg2 u = (regFind reg u).map
            (fun r => { r with actions := r.actions ++ consumedFor kill acts u }) := by
  intro acts
  induction acts with
  | nil =>
    intro reg hH
    refine ⟨reg, rfl, ?_⟩
    intro u
    cases regFind reg u <;> simp [consumedFor]
  | cons x rest ih =>
    intro reg hH
    by_cases hx : isConsumedAction kill x = true
    · have hsome := hH x (List.mem_cons_self _ _) hx
      cases hq : regFind reg x.bundleUuid with
      | none => rw [hq] at hsome; simp at hsome
      | some r =>
        have hH1 : ∀ y ∈ rest, isConsumedAction kill y = true →
            (regFind (regInsert reg x.bundleUuid
              { r with actions := r.actions ++ [x.action] }) y.bundleUuid).isSome
              = true := by
          intro y hy hyc
          by_cases hw : y.bundleUuid = x.bundleUuid
          · rw [hw, regFind_regInsert_self]; rfl
          · rw [regFind_regInsert_ne _ _ _ _ hw]
            exact hH y (List.mem_cons_of_mem _ hy) hyc
        rcases ih (regInsert reg x.bundleUuid
            { r with actions := r.actions ++ [x.action] }) hH1 with ⟨reg2, hrun, hreg⟩
        refine ⟨reg2, ?_, ?_⟩
        · have hcond := (isConsumedAction_iff kill x).mp hx
          have hfilt : (x :: rest).filter (fun y => !(isConsumedAction kill y))
              = rest.filter (fun y => !(isConsumedAction kill y)) := by
            rw [List.filter_cons]
            simp [hx]
          simp only [processActions, if_pos hcond, hq, hrun, hfilt]
        · intro u
          rw [hreg u, consumedFor_cons, if_pos hx]
          by_cases hu : u = x.bundleUuid
          · subst hu
            rw [regFind_regInsert_self, hq, if_pos rfl]
            simp
          · rw [regFind_regInsert_ne _ _ _ _ hu, if_neg (fun hh => hu hh.symm)]
    · have hH1 : ∀ y ∈ rest, isConsumedAction kill y = true →
          (regFind reg y.bundleUuid).isSome = true :=
        fun y hy hyc => hH y (List.mem_cons_of_mem _ hy) hyc
      rcases ih reg hH1 with ⟨reg2, hrun, hreg⟩
      refine ⟨reg2, ?_, ?_⟩
      · have hcond : ¬ (x.action = BAction.kill ∧ kill x.bundleUuid = true) :=
          fun hc => hx ((isConsumedAction_iff kill x).mpr hc)
        have hx2 : isConsumedAction kill x = false := by
          revert hx; cases isConsumedAction kill x <;> simp
        have hfilt : (x :: rest).filter (fun y => !(isConsumedAction kill y))
            = x :: rest.filter (fun y => !(isConsumedAction kill y)) := by
          rw [List.filter_cons]
          simp [hx2]
        simp only [processActions, if_neg hcond, hrun, hfilt]
      · intro u
        rw [hreg u, consumedFor_cons, if_neg hx]

/-- C8: `check_killed_bundles` partitions the popped actions: the consumed
ones (confirmed KILLs) are appended to their bundles' scratch `actions`,
the rest are re-queued as one batch, consumed + re-queued = popped, and the
return value is whether the number of consumed actions is positive. -/
theorem dispatcher_conserves_actions (s : WState) (kill : String → Bool)
    (hH : ∀ x ∈ s.queue, isConsumedAction kill x = true →
      (regFind s.registry x.bundleUuid).isSome = true) :
    ∃ s2 : WState,
      checkKilledBundles s kill = .ok (s2,
        decide (0 < (s.queue.filter (isConsumedAction kill)).length))
      ∧ s2.queue = s.queue.filter (fun x => !(isConsumedAction kill x))
      ∧ (s.queue.filter (isConsumedAction kill)).length + s2.queue.length
          = s.queue.length
      ∧ ∀ u, regFind s2.registry u = (regFind s.registry u).map
          (fun r => { r with actions := r.actions ++ consumedFor kill s.queue u }) := by
  rcases processActions_ok kill s.queue s.registry hH with ⟨reg2, hrun, hreg⟩
  have hpart := filter_partition_length s.queue (isConsumedAction kill)
  refine ⟨⟨s.store, reg2,
      s.queue.filter (fun x => !(isConsumedAction kill x)), s.log⟩,
    ?_, rfl, by simpa using hpart, hreg⟩
  simp only [checkKilledBundles, hrun]
  have hdec : decide (s.queue.length
        - (s.queue.filter (fun x => !(isConsumedAction kill x))).length > 0)
      = decide (0 < (s.queue.filter (isConsumedAction kill)).length) := by
    rw [decide_eq_decide]
    omega
  rw [hdec]

/-- Witness for C8 at a concrete two-action queue: one confirmed KILL of a
tracked bundle, one unknown command that is re-queued. -/
theorem dispatcher_conserves_actions_witness :
    (∀ x ∈ wsKill.queue, isConsumedAction exKillFn x = true →
      (regFind wsKill.registry x.bundleUuid).isSome = true)
      ∧ ∃ s2 : WState,
        checkKilledBundles wsKill exKillFn = .ok (s2,
          decide (0 < (wsKill.queue.filter (isConsumedAction exKillFn)).length))
        ∧ s2.queue = wsKill.queue.filter (fun x => !(isConsumedAction exKillFn x))
        ∧ (wsKill.queue.filter (isConsumedAction exKillFn)).length + s2.queue.length
            = wsKill.queue.length
        ∧ ∀ u, regFind s2.registry u = (regFind wsKill.registry u).map
            (fun r => { r with actions := r.actions ++ consumedFor exKillFn wsKill.queue u }) :=
  ⟨by decide, dispatcher_conserves_actions wsKill exKillFn (by decide)⟩

theorem updateCreatedBundles_unfold (s : WState) (bundles : List Bundle)
    (ps : List (String × BState)) :
    updateCreatedBundles s bundles ps =
      match updateBundleStates (failLoop s (bundlesToFail bundles ps))
          (bundlesToStage bundles ps) .staged with
      | .error e => .error e
      | .ok (s3, _, _) => .ok (s3, decide ((bundlesToFail bundles ps).length
          + (bundlesToStage bundles ps).length > 0)) := rfl

theorem mem_bundlesToFail (bundles : List Bundle) (ps : List (String × BState))
    (b : Bundle) (msg : String) :
    (b, msg) ∈ bundlesToFail bundles ps ↔
      b ∈ bundles
      ∧ ((parentUuidsOf b).all (fun u => (psFind ps u).isSome)) = true
      ∧ failedUuidsOf ps b ≠ []
      ∧ msg = failMessageOf ps b := by
  unfold bundlesToFail
  rw [List.mem_filterMap]
  constructor
  · rintro ⟨a, ha, hfa⟩
    by_cases h1 : ((parentUuidsOf a).all (fun u => (psFind ps u).isSome)) = true
    · rw [if_pos h1] at hfa
      by_cases h2 : failedUuidsOf ps a = []
      · rw [if_pos h2] at hfa
        exact absurd hfa (by simp)
      · rw [if_neg h2] at hfa
        simp only [Option.some.injEq, Prod.mk.injEq] at hfa
        obtain ⟨rfl, rfl⟩ := hfa
        exact ⟨ha, h1, h2, rfl⟩
    · rw [if_neg h1] at hfa
      exact absurd hfa (by simp)
  · rintro ⟨hb, h1, h2, rfl⟩
    exact ⟨b, hb, by rw [if_pos h1, if_neg h2]⟩

theorem mem_bundlesToStage (bundles : List Bundle) (ps : List (String × BState))
    (b : Bundle) :
    b ∈ bundlesToStage bundles ps ↔
      b ∈ bundles
      ∧ ((parentUuidsOf b).all (fun u => (psFind ps u).isSome)) = true
      ∧ failedUuidsOf ps b = []
      ∧ ((parentUuidsOf b).all (fun u => decide (psFind ps u = some .ready)))
          = true := by
  unfold bundlesToStage
  rw [List.mem_filter]
  simp only [Bool.and_eq_true, List.isEmpty_iff]
  tauto

theorem toFail_fst_sublist (bundles : List Bundle) (ps : List (String × BState)) :
    ((bundlesToFail bundles ps).map (fun p => p.1)).Sublist bundles := by
  induction bundles with
  | nil => simp [bundlesToFail]
  | cons a rest ih =>
    unfold bundlesToFail at ih ⊢
    rw [List.filterMap_cons]
    by_cases h1 : ((parentUuidsOf a).all (fun u => (psFind ps u).isSome)) = true
    · by_cases h2 : failedUuidsOf ps a = []
      · rw [if_pos h1, if_pos h2]
        exact ih.cons a
      · rw [if_pos h1, if_neg h2, List.map_cons]
        exact ih.cons₂ a
    · rw [if_neg h1]
      exact ih.cons a

theorem toFail_uuid_nodup (bundles : List Bundle) (ps : List (String × BState))
    (hnd : (bundles.map (fun x => x.uuid)).Nodup) :
    ((bundlesToFail bundles ps).map (fun p => p.1.uuid)).Nodup := by
  have hsub := (toFail_fst_sublist bundles ps).map (fun x => x.uuid)
  rw [List.map_map] at hsub
  exact hnd.sublist hsub

theorem all_states_created (l : List Bundle) (c : Bundle) (rest : List Bundle)
    (hl : l = c :: rest) (hc : ∀ x ∈ l, x.state = .created) :
    ((c :: rest).all (fun x => x.state = c.state)) = true := by
  subst hl
  rw [List.all_eq_true]
  intro x hx
  rw [hc x hx, hc c (List.mem_cons_self _ _)]
  exact decide_eq_true rfl

theorem updateBundleStates_row_notin (s1 : WState) (l : List Bundle)
    (st : BState) (w : String) (hc : ∀ x ∈ l, x.state = .created)
    (hw : ¬ w ∈ l.map (fun x => x.uuid)) :
    (updateBundleStates s1 l st).map (fun p => rowFind p.1.store w)
      = .ok (rowFind s1.store w) := by
  cases l with
  | nil => rfl
  | cons c rest =>
    rw [updateBundleStates_cons s1 c rest st (all_states_created _ c rest rfl hc),
      batchUpdateBundles_eq]
    by_cases hcond : condHolds s1.store (c :: rest) c.state = true
    · rw [if_pos hcond]
      simp only [Except.map]
      rw [batch_store_row_ne s1.store (c :: rest) st w hw]
    · rw [if_neg hcond]
      simp [Except.map]

theorem updateBundleStates_row_mem (s1 : WState) (l : List Bundle)
    (st : BState) (x : Bundle) (q : Bundle) (hx : x ∈ l)
    (hc : ∀ y ∈ l, y.state = .created)
    (hq : rowFind s1.store x.uuid = some q)
    (hcond : condHolds s1.store l .created = true) :
    (updateBundleStates s1 l st).map (fun p => rowFind p.1.store x.uuid)
      = .ok (some { q with state := st }) := by
  cases l with
  | nil => simp at hx
  | cons c rest =>
    have hcs : c.state = .created := hc c (List.mem_cons_self _ _)
    rw [updateBundleStates_cons s1 c rest st (all_states_created _ c rest rfl hc),
      batchUpdateBundles_eq]
    rw [if_pos (by rw [hcs]; exact hcond)]
    simp only [Except.map]
    rw [batch_store_row_mem s1.store (c :: rest) st x hx q hq]

theorem updateBundleStates_row_miss (s1 : WState) (l : List Bundle)
    (st : BState) (w : String) (hc : ∀ x ∈ l, x.state = .created)
    (hcond : condHolds s1.store l .created = false) :
    (updateBundleStates s1 l st).map (fun p => rowFind p.1.store w)
      = .ok (rowFind s1.store w) := by
  cases l with
  | nil => rfl
  | cons c rest =>
    have hcs : c.state = .created := hc c (List.mem_cons_self _ _)
    rw [updateBundleStates_cons s1 c rest st (all_states_created _ c rest rfl hc),
      batchUpdateBundles_eq]
    rw [if_neg (by rw [hcs, hcond]; exact Bool.false_ne_true)]
    simp [Except.map]

theorem updateCreated_row_notin_stage (s : WState) (bundles : List Bundle)
    (ps : List (String × BState)) (w : String)
    (hcs : ∀ x ∈ bundlesToStage bundles ps, x.state = .created)
    (hw : ¬ w ∈ (bundlesToStage bundles ps).map (fun x => x.uuid)) :
    (updateCreatedBundles s bundles ps).map (fun p => rowFind p.1.store w)
      = .ok (rowFind (failLoop s (bundlesToFail bundles ps)).store w) := by
  have hrow := updateBundleStates_row_notin
    (failLoop s (bundlesToFail bundles ps)) (bundlesToStage bundles ps)
    .staged w hcs hw
  rw [updateCreatedBundles_unfold]
  cases hu : updateBundleStates (failLoop s (bundlesToFail bundles ps))
      (bundlesToStage bundles ps) .staged with
  | error e => rw [hu] at hrow; exact absurd hrow (by simp [Except.map])
  | ok trip =>
    obtain ⟨s3, bs3, ok3⟩ := trip
    rw [hu] at hrow
    simp only [Except.map, Except.ok.injEq] at hrow ⊢
    exact hrow

theorem updateCreated_row_staged (s : WState) (bundles : List Bundle)
    (ps : List (String × BState)) (x : Bundle) (q : Bundle)
    (hx : x ∈ bundlesToStage bundles ps)
    (hcs : ∀ y ∈ bundlesToStage bundles ps, y.state = .created)
    (hq : rowFind (failLoop s (bundlesToFail bundles ps)).store x.uuid = some q)
    (hcond : condHolds (failLoop s (bundlesToFail bundles ps)).store
      (bundlesToStage bundles ps) .created = true) :
    (updateCreatedBundles s bundles ps).map (fun p => rowFind p.1.store x.uuid)
      = .ok (some { q with state := .staged }) := by
  have hrow := updateBundleStates_row_mem
    (failLoop s (bundlesToFail bundles ps)) (bundlesToStage bundles ps)
    .staged x q hx hcs hq hcond
  rw [updateCreatedBundles_unfold]
  cases hu : updateBundleStates (failLoop s (bundlesToFail bundles ps))
      (bundlesToStage bundles ps) .staged with
  | error e => rw [hu] at hrow; exact absurd hrow (by simp [Except.map])
  | ok trip =>
    obtain ⟨s3, bs3, ok3⟩ := trip
    rw [hu] at hrow
    simp only [Except.map, Except.ok.injEq] at hrow ⊢
    exact hrow

theorem updateCreated_row_stage_miss (s : WState) (bundles : List Bundle)
    (ps : List (String × BState)) (w : String)
    (hcs : ∀ x ∈ bundlesToStage bundles ps, x.state = .created)
    (hcond : condHolds (failLoop s (bundlesToFail bundles ps)).store
      (bundlesToStage bundles ps) .created = false) :
    (updateCreatedBundles s bundles ps).map (fun p => rowFind p.1.store w)
      = .ok (rowFind (failLoop s (bundlesToFail bundles ps)).store w) := by
  have hrow := updateBundleStates_row_miss
    (failLoop s (bundlesToFail bundles ps)) (bundlesToStage bundles ps)
    .staged w hcs hcond
  rw [updateCreatedBundles_unfold]
  cases hu : updateBundleStates (failLoop s (bundlesToFail bundles ps))
      (bundlesToStage bundles ps) .staged with
  | error e => rw [hu] at hrow; exact absurd hrow (by simp [Except.map])
  | ok trip =>
    obtain ⟨s3, bs3, ok3⟩ := trip
    rw [hu] at hrow
    simp only [Except.map, Except.ok.injEq] at hrow ⊢
    exact hrow

/-- C4: classification of a CREATED bundle in `update_created_bundles`.
With distinct uuids and a row for the bundle: a missing parent leaves the
row untouched (still CREATED); otherwise a FAILED parent makes the row
FAILED with `failure_message` = `Parent bundles failed: <failed uuids>`;
otherwise all-READY parents put the bundle in the conditional
CREATED → STAGED batch (row STAGED if the batch condition holds, untouched
if not); otherwise the row is left untouched. -/
theorem created_bundle_classification (s : WState) (bundles : List Bundle)
    (ps : List (String × BState)) (b : Bundle) (q : Bundle)
    (hmem : b ∈ bundles)
    (hnd : (bundles.map (fun x => x.uuid)).Nodup)
    (hc : ∀ x ∈ bundles, x.state = .created)
    (hq : rowFind s.store b.uuid = some q) :
    ((∃ d ∈ b.dependencies, psFind ps d.parentUuid = none) →
      (updateCreatedBundles s bundles ps).map (fun p => rowFind p.1.store b.uuid)
        = .ok (some q))
    ∧ ((∀ d ∈ b.dependencies, (psFind ps d.parentUuid).isSome = true) →
       (∃ d ∈ b.dependencies, psFind ps d.parentUuid = some .failed) →
      (updateCreatedBundles s bundles ps).map (fun p => rowFind p.1.store b.uuid)
        = .ok (some { q with
            state := .failed
            metadata := { q.metadata with
              failureMessage := some (failMessageOf ps b) } }))
    ∧ ((∀ d ∈ b.dependencies, (psFind ps d.parentUuid).isSome = true) →
       (∀ d ∈ b.dependencies, psFind ps d.parentUuid = some .ready) →
      b ∈ bundlesToStage bundles ps
      ∧ (condHolds (failLoop s (bundlesToFail bundles ps)).store
            (bundlesToStage bundles ps) .created = true →
          (updateCreatedBundles s bundles ps).map
            (fun p => rowFind p.1.store b.uuid)
            = .ok (some { q with state := .staged }))
      ∧ (condHolds (failLoop s (bundlesToFail bundles ps)).store
            (bundlesToStage bundles ps) .created = false →
          (updateCreatedBundles s bundles ps).map
            (fun p => rowFind p.1.store b.uuid) = .ok (some q)))
    ∧ ((∀ d ∈ b.dependencies, (psFind ps d.parentUuid).isSome = true) →
       (∀ d ∈ b.dependencies, ¬ psFind ps d.parentUuid = some .failed) →
       ¬ (∀ d ∈ b.dependencies, psFind ps d.parentUuid = some .ready) →
      (updateCreatedBundles s bundles ps).map (fun p => rowFind p.1.store b.uuid)
        = .ok (some q)) := by
  have hcs : ∀ x ∈ bundlesToStage bundles ps, x.state = .created := fun x hx =>
    hc x ((mem_bundlesToStage bundles ps x).mp hx).1
  have hSne : ¬ b ∈ bundlesToStage bundles ps →
      ¬ b.uuid ∈ (bundlesToStage bundles ps).map (fun x => x.uuid) := by
    intro hns hin
    rcases List.mem_map.mp hin with ⟨y, hy, hyu⟩
    have hyb : y = b := List.inj_on_of_nodup_map hnd
      ((mem_bundlesToStage bundles ps y).mp hy).1 hmem hyu
    exact hns (hyb ▸ hy)
  have hFne : (∀ msg, ¬ (b, msg) ∈ bundlesToFail bundles ps) →
      ∀ p ∈ bundlesToFail bundles ps, p.1.uuid ≠ b.uuid := by
    intro hnf p hp heq
    have hp2 : (p.1, p.2) ∈ bundlesToFail bundles ps := by simpa using hp
    have hm := (mem_bundlesToFail bundles ps p.1 p.2).mp hp2
    have hpb : p.1 = b := List.inj_on_of_nodup_map hnd hm.1 hmem heq
    rw [hpb] at hp2
    exact hnf p.2 hp2
  refine ⟨?_, ?_, ?_, ?_⟩
  · intro hmiss
    have hpres_false :
        ¬ (((parentUuidsOf b).all (fun u => (psFind ps u).isSome)) = true) := by
      intro hp
      rcases hmiss with ⟨d, hd, hnone⟩
      have hs := (parentUuidsOf_all b _).mp hp d hd
      rw [hnone] at hs
      simp at hs
    have hnotStage : ¬ b ∈ bundlesToStage bundles ps := fun hbs =>
      hpres_false ((mem_bundlesToStage bundles ps b).mp hbs).2.1
    have hnotFail : ∀ msg, ¬ (b, msg) ∈ bundlesToFail bundles ps := fun msg hbf =>
      hpres_false ((mem_bundlesToFail bundles ps b msg).mp hbf).2.1
    rw [updateCreated_row_notin_stage s bundles ps b.uuid hcs (hSne hnotStage),
      failLoop_store_ne s _ b.uuid (hFne hnotFail), hq]
  · intro hpres hfail
    have hp : ((parentUuidsOf b).all (fun u => (psFind ps u).isSome)) = true :=
      (parentUuidsOf_all b _).mpr hpres
    have hfne : failedUuidsOf ps b ≠ [] := (failedUuidsOf_ne_nil ps b).mpr hfail
    have hmemF : (b, failMessageOf ps b) ∈ bundlesToFail bundles ps :=
      (mem_bundlesToFail bundles ps b _).mpr ⟨hmem, hp, hfne, rfl⟩
    have hnotStage : ¬ b ∈ bundlesToStage bundles ps := fun hbs =>
      hfne ((mem_bundlesToStage bundles ps b).mp hbs).2.2.1
    rw [updateCreated_row_notin_stage s bundles ps b.uuid hcs (hSne hnotStage),
      failLoop_store_mem s _ b (failMessageOf ps b) q
        (toFail_uuid_nodup bundles ps hnd) hmemF hq]
    rfl
  · intro hpres hready
    have hp := (parentUuidsOf_all b (fun u => (psFind ps u).isSome)).mpr hpres
    have hfe : failedUuidsOf ps b = [] := by
      by_contra hne
      rcases (failedUuidsOf_ne_nil ps b).mp hne with ⟨d, hd, hfaild⟩
      have hr := hready d hd
      rw [hr] at hfaild
      simp at hfaild
    have hrdy := (parentUuidsOf_all b
        (fun u => decide (psFind ps u = some .ready))).mpr
      (fun d hd => decide_eq_true (hready d hd))
    have hbs : b ∈ bundlesToStage bundles ps :=
      (mem_bundlesToStage bundles ps b).mpr ⟨hmem, hp, hfe, hrdy⟩
    have hnotFail : ∀ msg, ¬ (b, msg) ∈ bundlesToFail bundles ps := fun msg hbf =>
      ((mem_bundlesToFail bundles ps b msg).mp hbf).2.2.1 hfe
    have hq1 : rowFind (failLoop s (bundlesToFail bundles ps)).store b.uuid
        = some q := by
      rw [failLoop_store_ne s _ b.uuid (hFne hnotFail)]
      exact hq
    refine ⟨hbs, ?_, ?_⟩
    · intro hcond
      rw [updateCreated_row_staged s bundles ps b q hbs hcs hq1 hcond]
    · intro hcond
      rw [updateCreated_row_stage_miss s bundles ps b.uuid hcs hcond, hq1]
  · intro hpres hnofail hnotready
    have hfe : failedUuidsOf ps b = [] := by
      by_contra hne
      rcases (failedUuidsOf_ne_nil ps b).mp hne with ⟨d, hd, hfaild⟩
      exact hnofail d hd hfaild
    have hnotStage : ¬ b ∈ bundlesToStage bundles ps := by
      intro hbs
      apply hnotready
      intro d hd
      exact of_decide_eq_true ((parentUuidsOf_all b
        (fun u => decide (psFind ps u = some .ready))).mp
          ((mem_bundlesToStage bundles ps b).mp hbs).2.2.2 d hd)
    have hnotFail : ∀ msg, ¬ (b, msg) ∈ bundlesToFail bundles ps := fun msg hbf =>
      ((mem_bundlesToFail bundles ps b msg).mp hbf).2.2.1 hfe
    rw [updateCreated_row_notin_stage s bundles ps b.uuid hcs (hSne hnotStage),
      failLoop_store_ne s _ b.uuid (hFne hnotFail), hq]

/-- Witness for C4: a CREATED child whose only parent is READY joins the
conditional staging batch, and with the row still CREATED the batch applies
and the row becomes STAGED. -/
theorem created_bundle_classification_witness :
    (exCreatedChild ∈ [exCreatedChild])
      ∧ (([exCreatedChild].map (fun x => x.uuid)).Nodup)
      ∧ (∀ d ∈ exCreatedChild.dependencies,
          (psFind [("p1", BState.ready)] d.parentUuid).isSome = true)
      ∧ (∀ d ∈ exCreatedChild.dependencies,
          psFind [("p1", BState.ready)] d.parentUuid = some .ready)
      ∧ exCreatedChild ∈ bundlesToStage [exCreatedChild] [("p1", BState.ready)]
      ∧ (updateCreatedBundles
            ⟨[{ uuid := "c1", kind := .runBundle, state := .created }], [], [], []⟩
            [exCreatedChild] [("p1", BState.ready)]).map
          (fun p => rowFind p.1.store exCreatedChild.uuid)
          = .ok (some { uuid := "c1", kind := .runBundle, state := .staged }) := by
  have H := created_bundle_classification
    ⟨[{ uuid := "c1", kind := .runBundle, state := .created }], [], [], []⟩
    [exCreatedChild] [("p1", BState.ready)] exCreatedChild
    { uuid := "c1", kind := .runBundle, state := .created }
    (by decide) (by decide) (by decide) rfl
  have H3 := H.2.2.1 (by decide) (by decide)
  exact ⟨by decide, by decide, by decide, by decide, H3.1, H3.2.1 (by decide)⟩

theorem condHolds_single (store : List Bundle) (b : Bundle) (q : Bundle)
    (hq : rowFind store b.uuid = some q) (hs : q.state = b.state) :
    condHolds store [b] b.state = true := by
  unfold condHolds
  simp [hq, hs]

theorem single_batch_step (s : WState) (b : Bundle) (st : BState)
    (hcond : condHolds s.store [b] b.state = true) :
    updateBundleStates s [b] st
      = .ok ({ s with
          store := s.store.map (fun r =>
            if (List.map (fun x => x.uuid) [b]).contains r.uuid
            then { r with state := st } else r)
          log := s.log ++ [.batchUpdate [b.uuid] st b.state true] },
        [{ b with state := st }], true) := by
  rw [updateBundleStates_cons s b [] st (by simp), batchUpdateBundles_eq,
    if_pos hcond]
  rfl

theorem single_batch_step_fail (s : WState) (b : Bundle) (st : BState)
    (hcond : condHolds s.store [b] b.state = false) :
    updateBundleStates s [b] st
      = .ok ({ s with log := s.log ++ [.batchUpdate [b.uuid] st b.state false] },
        [b], false) := by
  rw [updateBundleStates_cons s b [] st (by simp), batchUpdateBundles_eq,
    if_neg (by rw [hcond]; exact Bool.false_ne_true)]
  rfl

/-- C7: for a STAGED bundle the Launcher first issues the conditional
STAGED → RUNNING lock.  If the lock fails the bundle is skipped: no scratch
record is created, the store is untouched, nothing is started, only the
failed conditional op is logged.  If the lock succeeds and the backend
rejects the launch, the worker rolls back with a conditional
RUNNING → STAGED update: the row ends STAGED again (equal to its original
value), no other row changes, and the accepted-counter is unchanged. -/
theorem staged_lock_and_rollback (s : WState) (b : Bundle) (mo : MachineStart)
    (upload : UploadOutcome) (now : Nat) (acc : Nat)
    (hstate : b.state = .staged) (hhash : b.dataHash = none) :
    (condHolds s.store [b] b.state = false →
      processStagedBundle s b mo upload now acc
        = .ok ({ s with
            log := s.log ++ [.batchUpdate [b.uuid] .running .staged false] }, acc))
    ∧ (∀ q, rowFind s.store b.uuid = some q → q.state = .staged →
        b.kind = .runBundle → mo = .rejected →
        ∃ s1, processStagedBundle s b mo upload now acc = .ok (s1, acc)
          ∧ s1.log = s.log ++ [.batchUpdate [b.uuid] .running .staged true,
              .batchUpdate [b.uuid] .staged .running true]
          ∧ rowFind s1.store b.uuid = some q
          ∧ s1.registry = regInsert s.registry b.uuid
              ⟨(b.dependencies.map (fun d => d.parentUuid)).dedup, now, []⟩
          ∧ ∀ w, ¬ w = b.uuid → rowFind s1.store w = rowFind s.store w) := by
  constructor
  · intro hcond
    have hu := single_batch_step_fail s b .running hcond
    rw [hstate] at hu
    simp [processStagedBundle, hu]
  · intro q hq hqs hk hmo
    subst hmo
    have hqsb : q.state = b.state := by rw [hqs, hstate]
    have huuid := rowFind_uuid s.store b.uuid q hq
    have hcond := condHolds_single s.store b q hq hqsb
    have hu1 := single_batch_step s b .running hcond
    rw [hstate] at hu1
    have hrow1n : rowFind (List.map (fun r =>
        if r.uuid = b.uuid then { r with state := BState.running } else r) s.store)
        b.uuid = some { q with state := BState.running } := by
      rw [rowFind_map _ (fun x => by
        by_cases h : x.uuid = b.uuid <;> simp [h]) s.store b.uuid, hq]
      simp [huuid]
    have hu2n := single_batch_step
      ⟨List.map (fun r =>
          if r.uuid = b.uuid then { r with state := BState.running } else r) s.store,
        regInsert s.registry b.uuid
          ⟨(List.map (fun d => d.parentUuid) b.dependencies).dedup, now, []⟩,
        s.queue,
        s.log ++ [.batchUpdate [b.uuid] .running .staged true]⟩
      { uuid := b.uuid, kind := BundleKind.runBundle, state := BState.running,
        dataHash := none, dependencies := b.dependencies, metadata := b.metadata }
      .staged
      (condHolds_single _ _ { q with state := BState.running } hrow1n rfl)
    refine ⟨⟨(List.map (fun r =>
          if r.uuid = b.uuid then { r with state := BState.running } else r)
          s.store).map (fun r =>
          if (List.map (fun x => x.uuid)
              [({ uuid := b.uuid, kind := BundleKind.runBundle,
                  state := BState.running, dataHash := none,
                  dependencies := b.dependencies,
                  metadata := b.metadata } : Bundle)]).contains r.uuid
          then { r with state := BState.staged } else r),
        regInsert s.registry b.uuid
          ⟨(List.map (fun d => d.parentUuid) b.dependencies).dedup, now, []⟩,
        s.queue,
        (s.log ++ [.batchUpdate [b.uuid] .running .staged true])
          ++ [.batchUpdate [b.uuid] .staged .running true]⟩,
      ?_, ?_, ?_, rfl, ?_⟩
    · simp [processStagedBundle, hu1, startBundle, hhash, hk]
      rw [hu2n]
      simp
    · simp [List.append_assoc]
    · have hr := batch_store_row_mem
        (List.map (fun r =>
          if r.uuid = b.uuid then { r with state := BState.running } else r) s.store)
        [({ uuid := b.uuid, kind := BundleKind.runBundle, state := BState.running,
            dataHash := none, dependencies := b.dependencies,
            metadata := b.metadata } : Bundle)] BState.staged
        { uuid := b.uuid, kind := BundleKind.runBundle, state := BState.running,
          dataHash := none, dependencies := b.dependencies,
          metadata := b.metadata } (List.mem_cons_self _ _)
        { q with state := BState.running } hrow1n
      rw [hr]
      rw [← hqs]
    · intro w hw
      have hw2 : ¬ w ∈
          ([({ uuid := b.uuid, kind := BundleKind.runBundle,
               state := BState.running, dataHash := none,
               dependencies := b.dependencies,
               metadata := b.metadata } : Bundle)].map (fun x => x.uuid)) := by
        simp [hw]
      rw [batch_store_row_ne _ _ _ w hw2]
      rw [rowFind_map _ (fun x => by
        by_cases h : x.uuid = b.uuid <;> simp [h]) s.store w]
      cases hr : rowFind s.store w with
      | none => rfl
      | some rr =>
        have hru := rowFind_uuid s.store w rr hr
        simp [hru, hw]

/-- Witness for C7: a concrete STAGED run bundle is locked, the backend
rejects the launch, and the conditional rollback restores the STAGED row. -/
theorem staged_lock_and_rollback_witness :
    exRunStaged.state = .staged ∧ exRunStaged.dataHash = none
      ∧ rowFind [exRunStaged] exRunStaged.uuid = some exRunStaged
      ∧ exRunStaged.kind = .runBundle
      ∧ ∃ s1, processStagedBundle ⟨[exRunStaged], [], [], []⟩ exRunStaged
            .rejected (.ok ("h", {})) 2 0 = .ok (s1, 0)
          ∧ s1.log = [] ++ [.batchUpdate [exRunStaged.uuid] .running .staged true,
              .batchUpdate [exRunStaged.uuid] .staged .running true]
          ∧ rowFind s1.store exRunStaged.uuid = some exRunStaged
          ∧ s1.registry = regInsert [] exRunStaged.uuid
              ⟨(exRunStaged.dependencies.map (fun d => d.parentUuid)).dedup, 2, []⟩
          ∧ ∀ w, ¬ w = exRunStaged.uuid →
              rowFind s1.store w = rowFind [exRunStaged] w :=
  ⟨rfl, rfl, rfl, rfl,
    (staged_lock_and_rollback ⟨[exRunStaged], [], [], []⟩ exRunStaged .rejected
        (.ok ("h", {})) 2 0 rfl rfl).2 exRunStaged rfl rfl rfl rfl⟩

theorem finalizeBundle_shape (s : WState) (b : Bundle) (succ : Bool)
    (upload : UploadOutcome) (t : Nat) (rec : ScratchRecord)
    (hrec : regFind s.registry b.uuid = some rec) :
    ∃ upd, finalizeBundle s b succ upload t
      = .ok { s with store := updateBundle s.store b.uuid upd
                     log := s.log ++ [.updateOne b.uuid upd] } := by
  unfold finalizeBundle
  rw [hrec]
  exact ⟨_, rfl⟩

theorem lockmap_row_ne (store : List Bundle) (u w : String) (hw : ¬ w = u) :
    rowFind (store.map (fun r =>
      if r.uuid = u then { r with state := BState.running } else r)) w
      = rowFind store w := by
  rw [rowFind_map _ (fun x => by by_cases h : x.uuid = u <;> simp [h]) store w]
  cases hr : rowFind store w with
  | none => rfl
  | some rr =>
    have hru := rowFind_uuid store w rr hr
    simp [hru, hw]

theorem lockmap_row_mem (store : List Bundle) (u : String) (q : Bundle)
    (hq : rowFind store u = some q) :
    rowFind (store.map (fun r =>
      if r.uuid = u then { r with state := BState.running } else r)) u
      = some { q with state := BState.running } := by
  rw [rowFind_map _ (fun x => by by_cases h : x.uuid = u <;> simp [h]) store u, hq]
  simp [rowFind_uuid store u q hq]

theorem processStagedBundle_step (s : WState) (b : Bundle) (mo : MachineStart)
    (upload : UploadOutcome) (now : Nat) (acc : Nat) (q : Bundle)
    (hstate : b.state = .staged) (hhash : b.dataHash = none)
    (hq : rowFind s.store b.uuid = some q) (hqs : q.state = .staged) :
    ∃ s1, processStagedBundle s b mo upload now acc
        = .ok (s1, acc + (if b.kind = .makeBundle ∨ ¬ mo = .rejected then 1 else 0))
      ∧ ∀ w, ¬ w = b.uuid → rowFind s1.store w = rowFind s.store w := by
  have hqsb : q.state = b.state := by rw [hqs, hstate]
  have hcond := condHolds_single s.store b q hq hqsb
  have hu1 := single_batch_step s b .running hcond
  rw [hstate] at hu1
  have hrec : regFind (regInsert s.registry b.uuid
      ⟨(List.map (fun d => d.parentUuid) b.dependencies).dedup, now, []⟩) b.uuid
      = some ⟨(List.map (fun d => d.parentUuid) b.dependencies).dedup, now, []⟩ :=
    regFind_regInsert_self _ _ _
  cases hk : b.kind with
  | makeBundle =>
    rcases finalizeBundle_shape
      ⟨List.map (fun r =>
          if r.uuid = b.uuid then { r with state := BState.running } else r) s.store,
        regInsert s.registry b.uuid
          ⟨(List.map (fun d => d.parentUuid) b.dependencies).dedup, now, []⟩,
        s.queue,
        s.log ++ [.batchUpdate [b.uuid] .running .staged true]⟩
      { uuid := b.uuid, kind := BundleKind.makeBundle, state := BState.running,
        dataHash := none, dependencies := b.dependencies, metadata := b.metadata }
      true upload now
      ⟨(List.map (fun d => d.parentUuid) b.dependencies).dedup, now, []⟩ hrec
      with ⟨upd, hfin⟩
    refine ⟨⟨updateBundle (List.map (fun r =>
          if r.uuid = b.uuid then { r with state := BState.running } else r) s.store)
          b.uuid upd,
        regInsert s.registry b.uuid
          ⟨(List.map (fun d => d.parentUuid) b.dependencies).dedup, now, []⟩,
        s.queue,
        (s.log ++ [.batchUpdate [b.uuid] .running .staged true])
          ++ [.updateOne b.uuid upd]⟩, ?_, ?_⟩
    · simp [processStagedBundle, hu1, startBundle, hhash, hk]
      rw [hfin]
      simp
    · intro w hw
      dsimp only
      rw [rowFind_updateBundle_ne _ _ _ w hw]
      exact lockmap_row_ne s.store b.uuid w hw
  | runBundle =>
    cases mo with
    | accepted =>
      refine ⟨⟨List.map (fun r =>
            if r.uuid = b.uuid then { r with state := BState.running } else r) s.store,
          regInsert s.registry b.uuid
            ⟨(List.map (fun d => d.parentUuid) b.dependencies).dedup, now, []⟩,
          s.queue,
          s.log ++ [.batchUpdate [b.uuid] .running .staged true]⟩, ?_, ?_⟩
      · simp [processStagedBundle, hu1, startBundle, hhash, hk]
      · intro w hw
        dsimp only
        exact lockmap_row_ne s.store b.uuid w hw
    | raised msg =>
      rcases finalizeBundle_shape
        ⟨List.map (fun r =>
            if r.uuid = b.uuid then { r with state := BState.running } else r) s.store,
          regInsert s.registry b.uuid
            ⟨(List.map (fun d => d.parentUuid) b.dependencies).dedup, now, []⟩,
          s.queue,
          s.log ++ [.batchUpdate [b.uuid] .running .staged true]⟩
        { uuid := b.uuid, kind := BundleKind.runBundle, state := BState.running,
          dataHash := none, dependencies := b.dependencies, metadata := b.metadata }
        false upload now
        ⟨(List.map (fun d => d.parentUuid) b.dependencies).dedup, now, []⟩ hrec
        with ⟨upd, hfin⟩
      refine ⟨⟨updateBundle (List.map (fun r =>
            if r.uuid = b.uuid then { r with state := BState.running } else r) s.store)
            b.uuid upd,
          regInsert s.registry b.uuid
            ⟨(List.map (fun d => d.parentUuid) b.dependencies).dedup, now, []⟩,
          s.queue,
          (s.log ++ [.batchUpdate [b.uuid] .running .staged true])
            ++ [.updateOne b.uuid upd]⟩, ?_, ?_⟩
      · simp [processStagedBundle, hu1, startBundle, hhash, hk]
        rw [hfin]
        simp
      · intro w hw
        dsimp only
        rw [rowFind_updateBundle_ne _ _ _ w hw]
        exact lockmap_row_ne s.store b.uuid w hw
    | rejected =>
      have hrow1n := lockmap_row_mem s.store b.uuid q hq
      have hu2n := single_batch_step
        ⟨List.map (fun r =>
            if r.uuid = b.uuid then { r with state := BState.running } else r) s.store,
          regInsert s.registry b.uuid
            ⟨(List.map (fun d => d.parentUuid) b.dependencies).dedup, now, []⟩,
          s.queue,
          s.log ++ [.batchUpdate [b.uuid] .running .staged true]⟩
        { uuid := b.uuid, kind := BundleKind.runBundle, state := BState.running,
          dataHash := none, dependencies := b.dependencies, metadata := b.metadata }
        .staged
        (condHolds_single _ _ { q with state := BState.running } hrow1n rfl)
      refine ⟨⟨(List.map (fun r =>
            if r.uuid = b.uuid then { r with state := BState.running } else r)
            s.store).map (fun r =>
            if (List.map (fun x => x.uuid)
                [({ uuid := b.uuid, kind := BundleKind.runBundle,
                    state := BState.running, dataHash := none,
                    dependencies := b.dependencies,
                    metadata := b.metadata } : Bundle)]).contains r.uuid
            then { r with state := BState.staged } else r),
          regInsert s.registry b.uuid
            ⟨(List.map (fun d => d.parentUuid) b.dependencies).dedup, now, []⟩,
          s.queue,
          (s.log ++ [.batchUpdate [b.uuid] .running .staged true])
            ++ [.batchUpdate [b.uuid] .staged .running true]⟩, ?_, ?_⟩
      · simp [processStagedBundle, hu1, startBundle, hhash, hk]
        rw [hu2n]
        simp
      · intro w hw
        dsimp only
        rw [batch_store_row_ne _ _ _ w (by simp [hw])]
        exact lockmap_row_ne s.store b.uuid w hw

theorem startedUnder_iff (mo : String → MachineStart) (b : Bundle) :
    startedUnder mo b = true ↔ (b.kind = .makeBundle ∨ ¬ mo b.uuid = .rejected) := by
  simp [startedUnder]

theorem stagedLoop_count (mo : String → MachineStart)
    (upload : String → UploadOutcome) (now : Nat) :
    ∀ (staged : List Bundle) (s : WState) (acc : Nat),
      (∀ x ∈ staged, x.state = .staged) →
      (∀ x ∈ staged, x.dataHash = none) →
      (∀ x ∈ staged, ∃ q, rowFind s.store x.uuid = some q ∧ q.state = .staged) →
      ((staged.map (fun x => x.uuid)).Nodup) →
      ∃ s1, stagedLoop s mo upload now acc staged
          = .ok (s1, acc + staged.countP (fun x => startedUnder mo x)) := by
  intro staged
  induction staged with
  | nil =>
    intro s acc _ _ _ _
    exact ⟨s, by simp [stagedLoop]⟩
  | cons b rest ih =>
    intro s acc h1 h2 h3 h4
    rcases h3 b (List.mem_cons_self _ _) with ⟨q, hq, hqs⟩
    rcases processStagedBundle_step s b (mo b.uuid) (upload b.uuid) now acc q
      (h1 b (List.mem_cons_self _ _)) (h2 b (List.mem_cons_self _ _)) hq hqs
      with ⟨s1, hrun, hloc⟩
    rw [List.map_cons] at h4
    have h4x := List.nodup_cons.mp h4
    have h3x : ∀ x ∈ rest, ∃ q2, rowFind s1.store x.uuid = some q2
        ∧ q2.state = .staged := by
      intro x hx
      rcases h3 x (List.mem_cons_of_mem _ hx) with ⟨q2, hq2, hq2s⟩
      have hne : ¬ x.uuid = b.uuid := fun he =>
        h4x.1 (he ▸ List.mem_map_of_mem (fun y => y.uuid) hx)
      exact ⟨q2, by rw [hloc x.uuid hne]; exact hq2, hq2s⟩
    rcases ih s1 (acc + (if b.kind = .makeBundle ∨ ¬ mo b.uuid = .rejected
          then 1 else 0))
        (fun x hx => h1 x (List.mem_cons_of_mem _ hx))
        (fun x hx => h2 x (List.mem_cons_of_mem _ hx)) h3x h4x.2
      with ⟨s2, hrun2⟩
    refine ⟨s2, ?_⟩
    simp only [stagedLoop, hrun]
    rw [hrun2, List.countP_cons]
    simp only [Except.ok.injEq, Prod.mk.injEq]
    refine ⟨by trivial, ?_⟩
    by_cases hst : startedUnder mo b = true
    · rw [if_pos ((startedUnder_iff mo b).mp hst)]
      have : (fun x => startedUnder mo x) b = true := hst
      rw [if_pos this]
      omega
    · rw [if_neg (fun hp => hst ((startedUnder_iff mo b).mpr hp))]
      have : ¬ ((fun x => startedUnder mo x) b = true) := hst
      rw [if_neg this]
      omega

/-- C9 counterexample: a staged MakeBundle goes through inline finalization
only — the backend oracle would reject any start — yet
`update_staged_bundles` returns `true`. -/
theorem staged_return_cex :
    (updateStagedBundles ⟨[exMakeStaged], [], [], []⟩ [exMakeStaged]
        (fun _ => .rejected) (fun _ => .ok ("h", {})) 2).map (fun p => p.2)
      = .ok true := rfl

/-- C9 (amended): `update_staged_bundles` returns `true` iff some staged
bundle reported `started = True`: for run bundles this includes both backend
acceptance and a raised backend exception (finalized inline as FAILED), and
every MakeBundle (processed inline) counts as well; only backend rejection
(and lock failure) does not count. -/
theorem staged_return_iff (s : WState) (staged : List Bundle)
    (mo : String → MachineStart) (upload : String → UploadOutcome) (now : Nat)
    (h1 : ∀ x ∈ staged, x.state = .staged)
    (h2 : ∀ x ∈ staged, x.dataHash = none)
    (h3 : ∀ x ∈ staged, ∃ q, rowFind s.store x.uuid = some q ∧ q.state = .staged)
    (h4 : (staged.map (fun x => x.uuid)).Nodup) :
    (updateStagedBundles s staged mo upload now).map (fun p => p.2)
      = .ok (staged.any (fun x => startedUnder mo x)) := by
  rcases stagedLoop_count mo upload now staged s 0 h1 h2 h3 h4 with ⟨s1, hrun⟩
  simp only [updateStagedBundles, hrun]
  have hiff : (0 + staged.countP (fun x => startedUnder mo x) > 0)
      ↔ staged.any (fun x => startedUnder mo x) = true := by
    rw [Nat.zero_add, List.any_eq_true]
    exact List.countP_pos_iff
  have hbool : decide (0 + staged.countP (fun x => startedUnder mo x) > 0)
      = staged.any (fun x => startedUnder mo x) := by
    cases hany : staged.any (fun x => startedUnder mo x) with
    | true => exact decide_eq_true (hiff.mpr hany)
    | false =>
      apply decide_eq_false
      intro hc
      rw [hiff.mp hc] at hany
      exact Bool.noConfusion hany
  simp only [Except.map, hbool]

/-- Witness for C9 (amended): one staged run bundle the backend accepts. -/
theorem staged_return_iff_witness :
    (∀ x ∈ [exRunStaged], x.state = .staged)
      ∧ (∀ x ∈ [exRunStaged], x.dataHash = none)
      ∧ (∀ x ∈ [exRunStaged], ∃ q,
          rowFind [exRunStaged] x.uuid = some q ∧ q.state = .staged)
      ∧ (([exRunStaged].map (fun x => x.uuid)).Nodup)
      ∧ (updateStagedBundles ⟨[exRunStaged], [], [], []⟩ [exRunStaged]
            (fun _ => .accepted) (fun _ => .ok ("h", {})) 2).map (fun p => p.2)
          = .ok ([exRunStaged].any (fun x =>
              startedUnder (fun _ => .accepted) x)) :=
  ⟨by decide, by decide,
    by
      intro x hx
      simp at hx
      subst hx
      exact ⟨exRunStaged, rfl, rfl⟩,
    by decide,
    staged_return_iff ⟨[exRunStaged], [], [], []⟩ [exRunStaged]
      (fun _ => .accepted) (fun _ => .ok ("h", {})) 2 (by decide) (by decide)
      (by
        intro x hx
        simp at hx
        subst hx
        exact ⟨exRunStaged, rfl, rfl⟩)
      (by decide)⟩
